import Mathlib

/-!
# ssh-user: the host-selection and IdentityFile mutation pass of `main.go`

A shallow embedding of `src/main.go`.  The program is one function, `main`; it is
embedded as a pure function from the parsed flags, the positional arguments, the
operating system (`OS`) and the `ssh_config` library (`Lib`) to the list of effects it
performs (`Event`) and the way the process ends (`Exit`).

Go strings are modelled as Lean `String`s (texts); the standard-library string
functions are written over the character lists so that they can be evaluated.
-/

namespace SshUser

/-! ## Data model -/

/-- Modelled from the spec: the `ssh_config.Node` interface is declared in the
third-party parser, not in this repository.  Spec §3: a node is "either a key/value
pair (key, value, both text) or an opaque passthrough element (comment/blank line)".
`KV` is `*ssh_config.KV` with its fields `Key` and `Value`; `Other` is any other
dynamic type of the interface. -/
inductive Node where
  | KV (Key Value : String)
  | Other (text : String)
  deriving DecidableEq, Repr

/-- Modelled from the spec: `ssh_config.Host` (declared in the third-party parser).
Spec §3: "a selection pattern (one or more glob-style patterns) plus an ordered
sequence of Nodes". -/
structure Host where
  Patterns : List String
  Nodes : List Node
  deriving DecidableEq, Repr

/-- Modelled from the spec: `ssh_config.Config` (declared in the third-party parser).
Spec §3: "an ordered sequence of Host blocks". -/
structure Config where
  Hosts : List Host
  deriving DecidableEq, Repr

/-- The package-level flag variables of `main.go` (lines 17-22) after `flag.Parse()`. -/
structure Flags where
  helpFlag : Bool
  hostFlag : String
  listFlag : Bool
  confFlag : String
  deriving DecidableEq, Repr

/-- The declared defaults of the four flags (lines 18-21). -/
def Flags.default : Flags :=
  { helpFlag := false, hostFlag := "*", listFlag := false, confFlag := ".ssh/config" }

/-- An effect performed by `main`, in program order.  `Exec` records the argument vector
of the external command together with the error `cmd.Run()` returned (`none` = nil). -/
inductive Event where
  | PrintDefaults
  | Println (s : String)
  | Open (name : String)
  | Exec (argv : List String) (err : Option String)
  | WriteFile (name : String) (data : String) (perm : Nat)
  deriving DecidableEq, Repr

/-- How the process ends: `main` returns, `log.Fatal(err)` or `panic(msg)`. -/
inductive Exit where
  | returned
  | fatal (err : String)
  | panicked (msg : String)
  deriving DecidableEq, Repr

/-- What one run of `main` does: its effects and its end. -/
structure Outcome where
  trace : List Event
  exit : Exit
  deriving DecidableEq, Repr

/-- The state of a loop after it ran: either it ran to its end with a value, or a
`log.Fatal` inside it ended the process. -/
inductive Step (α : Type) where
  | done (a : α)
  | fatal (err : String)
  deriving DecidableEq, Repr

/-- The operating system as `main` sees it.  `Run k argv` is the error returned by the
`k`-th (counting from 0) external command of the run, started with `argv`. -/
structure OS where
  UserHomeDir : Except String String
  Getwd : Except String String
  Open : String → Except String String
  Run : Nat → List String → Option String
  WriteFile : String → String → Nat → Option String

/-- The entry points of `github.com/kevinburke/ssh_config` that `main` calls.  The
library is an external collaborator (spec §1), so it is a parameter of the embedding. -/
structure Lib where
  Decode : String → Except String Config
  ConfigString : Config → String
  HostString : Host → String
  MarshalText : Config → Except String String
  Matches : Host → String → Bool

/-! ## Standard-library functions used by `main` -/

/-- Go `strings.HasPrefix(s, p)`. -/
def stringsHasPrefix (s p : String) : Bool :=
  p.data.isPrefixOf s.data

/-- Whether `sub` occurs in `l` as a contiguous block. -/
def listContains : List Char → List Char → Bool
  | [], sub => sub.isEmpty
  | c :: cs, sub => sub.isPrefixOf (c :: cs) || listContains cs sub

/-- Go `bytes.Contains([]byte(s), []byte(sub))`. -/
def bytesContains (s sub : String) : Bool :=
  listContains s.data sub.data

/-- Split a path at every `/`. -/
def splitSlash : List Char → List (List Char)
  | [] => [[]]
  | c :: cs =>
    if c = '/' then [] :: splitSlash cs
    else
      match splitSlash cs with
      | [] => [[c]]
      | x :: xs => (c :: x) :: xs

/-- The element-wise rules of Go `path.Clean`: drop empty and `.` elements, let an
inner `..` remove the element before it, drop `..` at the start of a rooted path.
`acc` holds the kept elements, last first. -/
def cleanElems (rooted : Bool) : List (List Char) → List (List Char) → List (List Char)
  | acc, [] => acc.reverse
  | acc, e :: rest =>
    if e = [] ∨ e = ['.'] then cleanElems rooted acc rest
    else if e = ['.', '.'] then
      match acc with
      | top :: acc1 =>
        if top = ['.', '.'] then cleanElems rooted (e :: acc) rest
        else cleanElems rooted acc1 rest
      | [] => if rooted then cleanElems rooted [] rest else cleanElems rooted [e] rest
    else cleanElems rooted (e :: acc) rest

/-- Modelled from the spec: Go `path.Clean` (standard library, not in the repository),
following its documented rules; the spec only says that the parts are joined. -/
def pathClean (p : List Char) : List Char :=
  let rooted := p.head? = some '/'
  let body := ['/'].intercalate (cleanElems rooted [] (splitSlash p))
  let out := if rooted then '/' :: body else body
  if out = [] then ['.'] else out

/-- Modelled from the spec: Go `path.Join` (standard library, not in the repository):
the non-empty elements joined with `/`, then cleaned; the empty string when every
element is empty. -/
def pathJoin (elem : List String) : String :=
  match (elem.filter (fun e => e ≠ "")).map String.data with
  | [] => ""
  | es => String.mk (pathClean (['/'].intercalate es))

/-! ## `main` -/

/-- Lines 49-57: the path of the configuration file, from the `-config` value, the
home directory and the working directory.  Two consecutive `if` statements, each
assigning to `*confFlag`. -/
def confPath (confFlag home wdir : String) : String :=
  let c1 := if stringsHasPrefix confFlag "./" then pathJoin [wdir, confFlag] else confFlag
  if !bytesContains c1 home then pathJoin [home, c1] else c1

/-- Put `ev` in front of the effects of the rest of a loop. -/
def emit {α : Type} (ev : List Event) (r : List Event × Step α) : List Event × Step α :=
  (ev ++ r.1, r.2)

/-- Put the element the loop has just left behind in front of the elements the rest of
the loop leaves behind; the counter of external commands is passed on. -/
def keep {β : Type} (x : β) : List Event × Step (List β × Nat) → List Event × Step (List β × Nat)
  | (ev, Step.done (xs, k)) => (ev, Step.done (x :: xs, k))
  | (ev, Step.fatal e) => (ev, Step.fatal e)

/-- Lines 94-114: the loop over the nodes of one host block.  `k` counts the external
commands run so far.  The result lists the nodes as the loop leaves them. -/
def nodesLoop (os : OS) (home identity : String) :
    Nat → List Node → List Event × Step (List Node × Nat)
  | k, [] => ([], Step.done ([], k))
  | k, Node.KV key value :: rest =>
    if key ≠ "IdentityFile" then
      keep (Node.KV key value) (nodesLoop os home identity k rest)
    else
      let identityLocation := pathJoin [home, ".ssh", identity]
      let argv := ["ssh-add", "-K", identityLocation]
      match os.Run k argv with
      | some err => ([Event.Exec argv (some err)], Step.fatal err)
      | none =>
        emit [Event.Exec argv none]
          (keep (Node.KV key identityLocation) (nodesLoop os home identity (k + 1) rest))
  | k, Node.Other text :: rest =>
    keep (Node.Other text) (nodesLoop os home identity k rest)

/-- Lines 94-117: what one iteration of the outer loop does with a block that passed
both guards: its nodes are run through `nodesLoop`, then the block is printed. -/
def visitHost (lib : Lib) (os : OS) (home identity : String) (k : Nat) (host : Host) :
    List Event × Step (Host × Nat) :=
  match nodesLoop os home identity k host.Nodes with
  | (ev, Step.fatal err) => (ev, Step.fatal err)
  | (ev, Step.done (nodes, k1)) =>
    let host1 : Host := { host with Nodes := nodes }
    (ev ++ [Event.Println (lib.HostString host1)], Step.done (host1, k1))

/-- Lines 82-118: the loop over the host blocks.  The two `continue` guards are
lines 85 and 90. -/
def hostsLoop (lib : Lib) (os : OS) (hostFlag home identity : String) :
    Nat → List Host → List Event × Step (List Host × Nat)
  | k, [] => ([], Step.done ([], k))
  | k, host :: rest =>
    if hostFlag ≠ "*" ∧ lib.Matches host "*" = true then
      keep host (hostsLoop lib os hostFlag home identity k rest)
    else if ¬ (lib.Matches host hostFlag = true) then
      keep host (hostsLoop lib os hostFlag home identity k rest)
    else
      match visitHost lib os home identity k host with
      | (ev, Step.fatal err) => (ev, Step.fatal err)
      | (ev, Step.done (host1, k1)) =>
        emit ev (keep host1 (hostsLoop lib os hostFlag home identity k1 rest))

/-- The function `main` of `main.go`, after `flag.Parse()`: `fl` are the flag values and
`args` the positional arguments (`flag.Args()`). -/
def main (os : OS) (lib : Lib) (fl : Flags) (args : List String) : Outcome :=
  if fl.helpFlag then ⟨[Event.PrintDefaults], Exit.returned⟩
  else
    let identity := args.getD 0 ""
    match os.UserHomeDir with
    | Except.error err => ⟨[], Exit.fatal err⟩
    | Except.ok home =>
      match os.Getwd with
      | Except.error err => ⟨[], Exit.fatal err⟩
      | Except.ok wdir =>
        let conf := confPath fl.confFlag home wdir
        match os.Open conf with
        | Except.error err => ⟨[Event.Open conf], Exit.fatal err⟩
        | Except.ok f =>
          match lib.Decode f with
          | Except.error err => ⟨[Event.Open conf], Exit.fatal err⟩
          | Except.ok c =>
            if fl.listFlag then
              ⟨[Event.Open conf, Event.Println (lib.ConfigString c)], Exit.returned⟩
            else if args.length < 1 then
              ⟨[Event.Open conf], Exit.panicked "no argument given to the command line"⟩
            else
              match hostsLoop lib os fl.hostFlag home identity 0 c.Hosts with
              | (ev, Step.fatal err) => ⟨Event.Open conf :: ev, Exit.fatal err⟩
              | (ev, Step.done (hosts, _)) =>
                match lib.MarshalText { c with Hosts := hosts } with
                | Except.error err => ⟨Event.Open conf :: ev, Exit.fatal err⟩
                | Except.ok mt =>
                  match os.WriteFile conf mt 0o644 with
                  | some err =>
                    ⟨Event.Open conf :: ev ++ [Event.WriteFile conf mt 0o644], Exit.fatal err⟩
                  | none =>
                    ⟨Event.Open conf :: ev ++ [Event.WriteFile conf mt 0o644], Exit.returned⟩

/-! ## Vocabulary of the properties -/

/-- The selection the two guards of lines 85 and 90 make: a block is in scope when
neither `continue` is taken. -/
def inScope (lib : Lib) (hostFlag : String) (host : Host) : Bool :=
  !(decide (hostFlag ≠ "*") && lib.Matches host "*") && lib.Matches host hostFlag

/-- Spec §4.2 for one node: a key/value node with key `IdentityFile` gets the value
`loc`, every other node stays. -/
def rewriteNode (loc : String) : Node → Node
  | Node.KV key value => if key = "IdentityFile" then Node.KV key loc else Node.KV key value
  | Node.Other text => Node.Other text

/-- Spec §4.2 for one block: the same patterns, each node rewritten in place. -/
def rewriteHost (loc : String) (host : Host) : Host :=
  { host with Nodes := host.Nodes.map (rewriteNode loc) }

/-- Whether a node is a mutation target: a key/value node with key `IdentityFile`. -/
def Node.isTarget : Node → Bool
  | Node.KV key _ => decide (key = "IdentityFile")
  | Node.Other _ => false

/-- The number of mutation targets among the nodes of a block. -/
def targets (host : Host) : Nat :=
  host.Nodes.countP Node.isTarget

/-- Whether an effect is a run of the external command. -/
def Event.isExec : Event → Bool
  | Event.Exec _ _ => true
  | _ => false

/-- Whether an effect is a run of the external command that returned an error. -/
def Event.isFailedExec : Event → Bool
  | Event.Exec _ (some _) => true
  | _ => false

/-- Whether an effect writes a file. -/
def Event.isWrite : Event → Bool
  | Event.WriteFile _ _ _ => true
  | _ => false

/-- Whether an effect touches the file system. -/
def Event.isFileAccess : Event → Bool
  | Event.Open _ => true
  | Event.WriteFile _ _ _ => true
  | _ => false

/-- The result of a loop over `xs` seen as the result of the loop over the same list
with `x` put at position `n`: same effects, same end, `x` itself in the list. -/
def insertAt {β : Type} (n : Nat) (x : β) :
    List Event × Step (List β × Nat) → List Event × Step (List β × Nat)
  | (ev, Step.done (xs, k)) => (ev, Step.done (xs.take n ++ x :: xs.drop n, k))
  | (ev, Step.fatal e) => (ev, Step.fatal e)

/-- A list of effects without a failed run of the external command and without a
write. -/
def Quiet (ev : List Event) : Prop :=
  ∀ e ∈ ev, e.isFailedExec = false ∧ e.isWrite = false

/-- The shape of the effects of a loop: no write; no failed run of the external command
when the loop ran to its end; and when it ended the process, the failed run, with the
error reported, is the last effect and the only failed one. -/
def LoopTrace {α : Type} : List Event × Step α → Prop
  | (ev, Step.done _) => Quiet ev
  | (ev, Step.fatal err) => ∃ pre argv, ev = pre ++ [Event.Exec argv (some err)] ∧ Quiet pre

/-- The path resolution as the spec words it (§6): "resolved relative to the working
directory if prefixed `./`, otherwise relative to the home directory if not already
rooted there". -/
def confPathSpec (confFlag home wdir : String) : String :=
  if stringsHasPrefix confFlag "./" then pathJoin [wdir, confFlag]
  else if !stringsHasPrefix confFlag home then pathJoin [home, confFlag]
  else confFlag

/-- Every run of the external command listed in `ev` has the error the operating system
returned for it, `k` runs having been made before `ev`. -/
def Recorded (os : OS) : Nat → List Event → Prop
  | _, [] => True
  | k, Event.Exec argv r :: rest => r = os.Run k argv ∧ Recorded os (k + 1) rest
  | k, _ :: rest => Recorded os k rest

/-- The counter a loop hands on is the counter it got plus the runs it made. -/
def Counted {β : Type} (k : Nat) : List Event × Step (β × Nat) → Prop
  | (ev, Step.done (_, k1)) => k1 = k + ev.countP Event.isExec
  | (_, Step.fatal _) => True

/-! ## A concrete library and operating system, for closed examples -/

/-- Modelled from the spec: glob matching of one pattern against a name (the matcher of
the third-party parser is not in the repository).  Spec §3/§4.1: "glob-style patterns,
e.g. `*`, `example.com`", "exact string match or glob semantics"; `*` stands for any run
of characters, every other character for itself. -/
def globMatch : List Char → List Char → Bool
  | [], s => s.isEmpty
  | p :: ps, s =>
    if p = '*' then s.tails.any (globMatch ps)
    else
      match s with
      | [] => false
      | c :: t => decide (p = c) && globMatch ps t

/-- Modelled from the spec: `Host.Matches(name)` of the third-party parser: the block
matches the name when one of its patterns does (spec §4.1: "does block match the given
name"). -/
def Host.Matches (host : Host) (name : String) : Bool :=
  host.Patterns.any (fun p => globMatch p.data name.data)

/-- Text of one node, for the examples. -/
def renderNode : Node → String
  | Node.KV key value => "  " ++ key ++ " " ++ value ++ "\n"
  | Node.Other text => text ++ "\n"

/-- Text of one block, for the examples. -/
def renderHost (host : Host) : String :=
  "Host " ++ " ".intercalate host.Patterns ++ "\n" ++ String.join (host.Nodes.map renderNode)

/-- Text of a configuration, for the examples. -/
def renderConfig (c : Config) : String :=
  String.join (c.Hosts.map renderHost)

/-- A library for the examples: globs as in `Host.Matches`, the texts above, and a
decoder that knows the text of the one configuration `c`. -/
def exampleLib (c : Config) : Lib :=
  { Decode := fun text => if text = renderConfig c then Except.ok c else Except.error "parse error"
    ConfigString := renderConfig
    HostString := renderHost
    MarshalText := fun c1 => Except.ok (renderConfig c1)
    Matches := Host.Matches }

/-- An operating system for the examples: home `/home/u`, working directory `wdir`, one
file `/home/u/.ssh/config` holding the text of `c`; the external command fails at its
`failAt`-th run, if any. -/
def exampleOS (c : Config) (wdir : String) (failAt : Option Nat) : OS :=
  { UserHomeDir := Except.ok "/home/u"
    Getwd := Except.ok wdir
    Open := fun name =>
      if name = "/home/u/.ssh/config" then Except.ok (renderConfig c)
      else Except.error "open: no such file or directory"
    Run := fun k _ => if failAt = some k then some "exit status 1" else none
    WriteFile := fun _ _ _ => none }

/-- The `Host *` block of the spec scenario. -/
def hostStar : Host :=
  { Patterns := ["*"], Nodes := [Node.KV "IdentityFile" "old_key"] }

/-- The `Host example.com` block of the spec scenario. -/
def hostExample : Host :=
  { Patterns := ["example.com"], Nodes := [Node.KV "IdentityFile" "old_key"] }

/-- The configuration of the spec scenario (§8). -/
def scenario : Config :=
  { Hosts := [hostStar, hostExample] }

/-! ## Lemmas on the loops -/

theorem keep_done_iff {β : Type} (x : β) (r : List Event × Step (List β × Nat))
    (ev : List Event) (ys : List β) (k : Nat) :
    keep x r = (ev, Step.done (ys, k)) ↔
      ∃ xs, r = (ev, Step.done (xs, k)) ∧ ys = x :: xs := by
  rcases r with ⟨ev0, (⟨xs0, k0⟩ | e)⟩
  · simp only [keep, Prod.mk.injEq, Step.done.injEq]
    constructor
    · rintro ⟨rfl, rfl, rfl⟩
      exact ⟨xs0, ⟨rfl, rfl, rfl⟩, rfl⟩
    · rintro ⟨xs, ⟨rfl, rfl, rfl⟩, rfl⟩
      exact ⟨rfl, rfl, rfl⟩
  · simp [keep]

theorem emit_done_iff {α : Type} (ev0 : List Event) (r : List Event × Step α)
    (ev : List Event) (a : α) :
    emit ev0 r = (ev, Step.done a) ↔ ∃ ev1, r = (ev1, Step.done a) ∧ ev = ev0 ++ ev1 := by
  rcases r with ⟨ev1, s⟩
  simp only [emit, Prod.mk.injEq]
  constructor
  · rintro ⟨rfl, rfl⟩
    exact ⟨ev1, ⟨rfl, rfl⟩, rfl⟩
  · rintro ⟨ev2, ⟨rfl, rfl⟩, rfl⟩
    exact ⟨rfl, rfl⟩

theorem insertAt_keep {β : Type} (n : Nat) (x y : β) (r : List Event × Step (List β × Nat)) :
    insertAt (n + 1) x (keep y r) = keep y (insertAt n x r) := by
  rcases r with ⟨ev0, (⟨xs0, k0⟩ | e0)⟩ <;> simp [keep, insertAt]

theorem insertAt_emit {β : Type} (n : Nat) (x : β) (ev : List Event)
    (r : List Event × Step (List β × Nat)) :
    insertAt n x (emit ev r) = emit ev (insertAt n x r) := by
  rcases r with ⟨ev0, (⟨xs0, k0⟩ | e0)⟩ <;> simp [emit, insertAt]

theorem insertAt_zero {β : Type} (x : β) (r : List Event × Step (List β × Nat)) :
    insertAt 0 x r = keep x r := by
  rcases r with ⟨ev0, (⟨xs0, k0⟩ | e0)⟩ <;> simp [keep, insertAt]

/-- The nodes loop, when it runs to its end: every node rewritten as in spec §4.2, one
successful run of the external command per target, and nothing else. -/
theorem nodesLoop_done (os : OS) (home identity : String) (nodes : List Node) :
    ∀ (k : Nat) (ev : List Event) (ns : List Node) (k1 : Nat),
      nodesLoop os home identity k nodes = (ev, Step.done (ns, k1)) →
      ns = nodes.map (rewriteNode (pathJoin [home, ".ssh", identity])) ∧
      ev = List.replicate (nodes.countP Node.isTarget)
        (Event.Exec ["ssh-add", "-K", pathJoin [home, ".ssh", identity]] none) ∧
      k1 = k + nodes.countP Node.isTarget := by
  induction nodes with
  | nil =>
    intro k ev ns k1 h
    simp only [nodesLoop, Prod.mk.injEq, Step.done.injEq] at h
    obtain ⟨rfl, rfl, rfl⟩ := h
    simp
  | cons n rest ih =>
    intro k ev ns k1 h
    cases n with
    | KV key value =>
      by_cases hk : key = "IdentityFile"
      · subst hk
        simp only [nodesLoop, ne_eq, not_true_eq_false, if_false] at h
        cases hr : os.Run k ["ssh-add", "-K", pathJoin [home, ".ssh", identity]] with
        | some err => rw [hr] at h; simp at h
        | none =>
          rw [hr] at h
          simp only at h
          obtain ⟨ev1, h1, rfl⟩ := (emit_done_iff _ _ _ _).1 h
          obtain ⟨xs, h2, rfl⟩ := (keep_done_iff _ _ _ _ _).1 h1
          obtain ⟨rfl, rfl, rfl⟩ := ih _ _ _ _ h2
          simp [rewriteNode, Node.isTarget, List.replicate_succ]
          omega
      · simp only [nodesLoop, ne_eq, hk, not_false_eq_true, if_true] at h
        obtain ⟨xs, h2, rfl⟩ := (keep_done_iff _ _ _ _ _).1 h
        obtain ⟨rfl, rfl, rfl⟩ := ih _ _ _ _ h2
        simp [rewriteNode, Node.isTarget, hk]
    | Other text =>
      simp only [nodesLoop] at h
      obtain ⟨xs, h2, rfl⟩ := (keep_done_iff _ _ _ _ _).1 h
      obtain ⟨rfl, rfl, rfl⟩ := ih _ _ _ _ h2
      simp [rewriteNode, Node.isTarget]

/-- One visit of a block, when it runs to its end: the block rewritten as in spec §4.2,
one successful run of the external command per target, then the print of the block. -/
theorem visitHost_done (lib : Lib) (os : OS) (home identity : String) (k : Nat) (host : Host)
    (ev : List Event) (host1 : Host) (k1 : Nat)
    (h : visitHost lib os home identity k host = (ev, Step.done (host1, k1))) :
    host1 = rewriteHost (pathJoin [home, ".ssh", identity]) host ∧
    ev = List.replicate (targets host)
        (Event.Exec ["ssh-add", "-K", pathJoin [home, ".ssh", identity]] none) ++
      [Event.Println (lib.HostString host1)] ∧
    k1 = k + targets host := by
  unfold visitHost at h
  rcases hn : nodesLoop os home identity k host.Nodes with ⟨ev0, (⟨ns, k0⟩ | e0)⟩
  · rw [hn] at h
    simp only [Prod.mk.injEq, Step.done.injEq] at h
    obtain ⟨rfl, rfl, rfl⟩ := h
    obtain ⟨rfl, rfl, rfl⟩ := nodesLoop_done os home identity host.Nodes k _ _ _ hn
    exact ⟨rfl, rfl, rfl⟩
  · rw [hn] at h
    simp at h

theorem hostsLoop_cons_skip (lib : Lib) (os : OS) (hostFlag home identity : String) (k : Nat)
    (host : Host) (rest : List Host) (h : inScope lib hostFlag host = false) :
    hostsLoop lib os hostFlag home identity k (host :: rest) =
      keep host (hostsLoop lib os hostFlag home identity k rest) := by
  rw [hostsLoop]
  by_cases g1 : hostFlag ≠ "*" ∧ lib.Matches host "*" = true
  · rw [if_pos g1]
  · rw [if_neg g1]
    by_cases g2 : lib.Matches host hostFlag = true
    · exfalso
      simp only [inScope, g2, Bool.and_true, Bool.not_eq_false_eq_eq_true, Bool.and_eq_true,
        decide_eq_true_eq] at h
      exact g1 h
    · rw [if_pos g2]

theorem hostsLoop_cons_visit (lib : Lib) (os : OS) (hostFlag home identity : String) (k : Nat)
    (host : Host) (rest : List Host) (h : inScope lib hostFlag host = true) :
    hostsLoop lib os hostFlag home identity k (host :: rest) =
      match visitHost lib os home identity k host with
      | (ev, Step.fatal err) => (ev, Step.fatal err)
      | (ev, Step.done (host1, k1)) =>
        emit ev (keep host1 (hostsLoop lib os hostFlag home identity k1 rest)) := by
  unfold inScope at h
  rw [hostsLoop]
  simp only [Bool.and_eq_true, Bool.not_eq_true', Bool.and_eq_false_iff, decide_eq_false_iff_not,
    ne_eq, not_not] at h
  obtain ⟨h1, h2⟩ := h
  have g1 : ¬ (hostFlag ≠ "*" ∧ lib.Matches host "*" = true) := by
    rintro ⟨a, b⟩
    rcases h1 with h1 | h1
    · exact a h1
    · rw [b] at h1; cases h1
  rw [if_neg g1, if_neg (by simpa using h2)]

theorem hostsLoop_skip_at (lib : Lib) (os : OS) (hostFlag home identity : String)
    (host : Host) (post : List Host) (h : inScope lib hostFlag host = false) (pre : List Host) :
    ∀ k : Nat, hostsLoop lib os hostFlag home identity k (pre ++ host :: post) =
      insertAt pre.length host (hostsLoop lib os hostFlag home identity k (pre ++ post)) := by
  induction pre with
  | nil =>
    intro k
    simp only [List.nil_append, List.length_nil, insertAt_zero]
    exact hostsLoop_cons_skip lib os hostFlag home identity k host post h
  | cons p pre ih =>
    intro k
    simp only [List.cons_append, List.length_cons]
    cases hp : inScope lib hostFlag p with
    | false =>
      rw [hostsLoop_cons_skip _ _ _ _ _ _ _ _ hp, hostsLoop_cons_skip _ _ _ _ _ _ _ _ hp,
        insertAt_keep, ih]
    | true =>
      rw [hostsLoop_cons_visit _ _ _ _ _ _ _ _ hp, hostsLoop_cons_visit _ _ _ _ _ _ _ _ hp]
      rcases visitHost lib os home identity k p with ⟨ev0, (⟨h1, k1⟩ | e0)⟩
      · simp only [insertAt_emit, insertAt_keep, ih]
      · rfl

/-- The hosts loop, when it runs to its end: the blocks in scope rewritten as in spec
§4.2, the others as they were; the external command ran once per target of a block in
scope. -/
theorem hostsLoop_done (lib : Lib) (os : OS) (hostFlag home identity : String)
    (hosts : List Host) :
    ∀ (k : Nat) (ev : List Event) (hosts1 : List Host) (k1 : Nat),
      hostsLoop lib os hostFlag home identity k hosts = (ev, Step.done (hosts1, k1)) →
      hosts1 = hosts.map (fun h =>
        if inScope lib hostFlag h then rewriteHost (pathJoin [home, ".ssh", identity]) h else h) ∧
      ev.countP Event.isExec = ((hosts.filter (inScope lib hostFlag)).map targets).sum ∧
      k1 = k + ((hosts.filter (inScope lib hostFlag)).map targets).sum := by
  induction hosts with
  | nil =>
    intro k ev hosts1 k1 h
    simp only [hostsLoop, Prod.mk.injEq, Step.done.injEq] at h
    obtain ⟨rfl, rfl, rfl⟩ := h
    simp
  | cons p rest ih =>
    intro k ev hosts1 k1 h
    cases hp : inScope lib hostFlag p with
    | false =>
      rw [hostsLoop_cons_skip _ _ _ _ _ _ _ _ hp] at h
      obtain ⟨xs, h2, rfl⟩ := (keep_done_iff _ _ _ _ _).1 h
      obtain ⟨rfl, h3, rfl⟩ := ih _ _ _ _ h2
      simp [hp, h3]
    | true =>
      rw [hostsLoop_cons_visit _ _ _ _ _ _ _ _ hp] at h
      rcases hv : visitHost lib os home identity k p with ⟨ev0, (⟨h1, k0⟩ | e0)⟩
      · rw [hv] at h
        simp only at h
        obtain ⟨ev1, h4, rfl⟩ := (emit_done_iff _ _ _ _).1 h
        obtain ⟨xs, h2, rfl⟩ := (keep_done_iff _ _ _ _ _).1 h4
        obtain ⟨rfl, h3, rfl⟩ := ih _ _ _ _ h2
        obtain ⟨rfl, rfl, rfl⟩ := visitHost_done lib os home identity k p _ _ _ hv
        simp [hp, h3, List.countP_append, List.countP_replicate, Event.isExec, List.countP_cons]
        omega
      · rw [hv] at h
        simp at h

theorem nodesLoop_cons_target (os : OS) (home identity : String) (k : Nat) (key value : String)
    (rest : List Node) (hk : ¬ key ≠ "IdentityFile") :
    nodesLoop os home identity k (Node.KV key value :: rest) =
      match os.Run k ["ssh-add", "-K", pathJoin [home, ".ssh", identity]] with
      | some err =>
        ([Event.Exec ["ssh-add", "-K", pathJoin [home, ".ssh", identity]] (some err)],
          Step.fatal err)
      | none =>
        emit [Event.Exec ["ssh-add", "-K", pathJoin [home, ".ssh", identity]] none]
          (keep (Node.KV key (pathJoin [home, ".ssh", identity]))
            (nodesLoop os home identity (k + 1) rest)) := by
  rw [nodesLoop, if_neg hk]

theorem nodesLoop_skip_at (os : OS) (home identity : String) (n : Node) (post : List Node)
    (h : n.isTarget = false) (pre : List Node) :
    ∀ k : Nat, nodesLoop os home identity k (pre ++ n :: post) =
      insertAt pre.length n (nodesLoop os home identity k (pre ++ post)) := by
  induction pre with
  | nil =>
    intro k
    simp only [List.nil_append, List.length_nil, insertAt_zero]
    cases n with
    | KV key value =>
      have hk : key ≠ "IdentityFile" := by simpa [Node.isTarget] using h
      rw [nodesLoop, if_pos hk]
    | Other text => rw [nodesLoop]
  | cons p pre ih =>
    intro k
    simp only [List.cons_append, List.length_cons]
    cases p with
    | KV key value =>
      by_cases hk : key ≠ "IdentityFile"
      · rw [nodesLoop, nodesLoop, if_pos hk, if_pos hk, insertAt_keep, ih]
      · rw [nodesLoop_cons_target _ _ _ _ _ _ _ hk, nodesLoop_cons_target _ _ _ _ _ _ _ hk]
        cases os.Run k ["ssh-add", "-K", pathJoin [home, ".ssh", identity]] with
        | some err => rfl
        | none => simp only [insertAt_emit, insertAt_keep, ih]
    | Other text => rw [nodesLoop, nodesLoop, insertAt_keep, ih]

theorem quiet_nil : Quiet [] := by
  intro e he
  cases he

theorem quiet_append {a b : List Event} (ha : Quiet a) (hb : Quiet b) : Quiet (a ++ b) := by
  intro e he
  rcases List.mem_append.1 he with h | h
  · exact ha e h
  · exact hb e h

theorem quiet_cons {e : Event} {a : List Event} (he : e.isFailedExec = false ∧ e.isWrite = false)
    (ha : Quiet a) : Quiet (e :: a) := by
  intro x hx
  rcases List.mem_cons.1 hx with h | h
  · rw [h]; exact he
  · exact ha x h

theorem loopTrace_keep {β : Type} (x : β) (r : List Event × Step (List β × Nat))
    (h : LoopTrace r) : LoopTrace (keep x r) := by
  rcases r with ⟨ev0, (⟨xs0, k0⟩ | e0)⟩
  · exact h
  · exact h

theorem loopTrace_emit {α : Type} (ev : List Event) (r : List Event × Step α)
    (hq : Quiet ev) (h : LoopTrace r) : LoopTrace (emit ev r) := by
  rcases r with ⟨ev0, (a | e0)⟩
  · exact quiet_append hq h
  · obtain ⟨pre, argv, rfl, hpre⟩ := h
    exact ⟨ev ++ pre, argv, by simp [emit], quiet_append hq hpre⟩

theorem nodesLoop_trace (os : OS) (home identity : String) (nodes : List Node) :
    ∀ k : Nat, LoopTrace (nodesLoop os home identity k nodes) := by
  induction nodes with
  | nil =>
    intro k
    exact quiet_nil
  | cons n rest ih =>
    intro k
    cases n with
    | KV key value =>
      by_cases hk : key ≠ "IdentityFile"
      · rw [nodesLoop, if_pos hk]
        exact loopTrace_keep _ _ (ih k)
      · rw [nodesLoop_cons_target _ _ _ _ _ _ _ hk]
        cases os.Run k ["ssh-add", "-K", pathJoin [home, ".ssh", identity]] with
        | some err => exact ⟨[], _, rfl, quiet_nil⟩
        | none =>
          exact loopTrace_emit _ _ (quiet_cons ⟨rfl, rfl⟩ quiet_nil)
            (loopTrace_keep _ _ (ih (k + 1)))
    | Other text =>
      rw [nodesLoop]
      exact loopTrace_keep _ _ (ih k)

theorem visitHost_trace (lib : Lib) (os : OS) (home identity : String) (k : Nat) (host : Host) :
    LoopTrace (visitHost lib os home identity k host) := by
  unfold visitHost
  have h := nodesLoop_trace os home identity host.Nodes k
  rcases hn : nodesLoop os home identity k host.Nodes with ⟨ev0, (⟨ns, k0⟩ | e0)⟩
  · rw [hn] at h
    exact quiet_append h (quiet_cons ⟨rfl, rfl⟩ quiet_nil)
  · rw [hn] at h
    exact h

theorem visitHost_effects (lib : Lib) (os : OS) (home identity : String) (k : Nat) (host : Host) :
    (visitHost lib os home identity k host).1 ≠ [] := by
  unfold visitHost
  have h := nodesLoop_trace os home identity host.Nodes k
  rcases hn : nodesLoop os home identity k host.Nodes with ⟨ev0, (⟨ns, k0⟩ | e0)⟩
  · simp
  · rw [hn] at h
    obtain ⟨pre, argv, rfl, _⟩ := h
    simp

theorem hostsLoop_trace (lib : Lib) (os : OS) (hostFlag home identity : String)
    (hosts : List Host) :
    ∀ k : Nat, LoopTrace (hostsLoop lib os hostFlag home identity k hosts) := by
  induction hosts with
  | nil =>
    intro k
    exact quiet_nil
  | cons p rest ih =>
    intro k
    cases hp : inScope lib hostFlag p with
    | false =>
      rw [hostsLoop_cons_skip _ _ _ _ _ _ _ _ hp]
      exact loopTrace_keep _ _ (ih k)
    | true =>
      rw [hostsLoop_cons_visit _ _ _ _ _ _ _ _ hp]
      have h := visitHost_trace lib os home identity k p
      rcases hv : visitHost lib os home identity k p with ⟨ev0, (⟨h1, k0⟩ | e0)⟩
      · rw [hv] at h
        exact loopTrace_emit _ _ h (loopTrace_keep _ _ (ih k0))
      · rw [hv] at h
        exact h

theorem failed_is_last (p : List Event) (x y : Event) (hp : Quiet p)
    (hy : y.isFailedExec = true) :
    ∀ (pre post : List Event), p ++ [x] = pre ++ y :: post → post = [] ∧ y = x := by
  induction p with
  | nil =>
    intro pre post h
    cases pre with
    | nil =>
      simp only [List.nil_append, List.cons.injEq] at h
      exact ⟨h.2.symm, h.1.symm⟩
    | cons b pre =>
      simp at h
  | cons a p ih =>
    intro pre post h
    cases pre with
    | nil =>
      simp only [List.cons_append, List.nil_append, List.cons.injEq] at h
      have := (hp a (List.mem_cons_self _ _)).1
      rw [h.1, hy] at this
      cases this
    | cons b pre =>
      simp only [List.cons_append, List.cons.injEq] at h
      exact ih (fun e he => hp e (List.mem_cons_of_mem _ he)) pre post h.2

theorem inScope_star (lib : Lib) (host : Host) :
    inScope lib "*" host = lib.Matches host "*" := by
  simp [inScope]

theorem inScope_of_ne_star (lib : Lib) (hostFlag : String) (host : Host) (hP : hostFlag ≠ "*") :
    inScope lib hostFlag host = (lib.Matches host hostFlag && !lib.Matches host "*") := by
  simp only [inScope, hP, ne_eq, not_false_eq_true, decide_True, Bool.true_and]
  exact Bool.and_comm _ _

theorem forall₂_map_self {β : Type} (R : β → β → Prop) (f : β → β) (l : List β)
    (h : ∀ x ∈ l, R x (f x)) : List.Forall₂ R l (l.map f) := by
  induction l with
  | nil => exact List.Forall₂.nil
  | cons a l ih =>
    exact List.Forall₂.cons (h a (List.mem_cons_self _ _))
      (ih (fun x hx => h x (List.mem_cons_of_mem _ hx)))

theorem rewriteHost_of_no_target (loc : String) (host : Host)
    (h : ∀ value, Node.KV "IdentityFile" value ∉ host.Nodes) : rewriteHost loc host = host := by
  have hn : host.Nodes.map (rewriteNode loc) = host.Nodes := by
    conv_rhs => rw [← List.map_id host.Nodes]
    apply List.map_congr_left
    intro n hn
    cases n with
    | KV key value =>
      by_cases hk : key = "IdentityFile"
      · subst hk
        exact absurd hn (h value)
      · simp [rewriteNode, hk]
    | Other text => rfl
  cases host with
  | mk ps ns =>
    simp only [rewriteHost] at hn ⊢
    rw [hn]

theorem hostsLoop_all_skipped (lib : Lib) (os : OS) (hostFlag home identity : String)
    (hosts : List Host) (h : ∀ host ∈ hosts, inScope lib hostFlag host = false) :
    ∀ k : Nat, hostsLoop lib os hostFlag home identity k hosts = ([], Step.done (hosts, k)) := by
  induction hosts with
  | nil =>
    intro k
    rfl
  | cons p rest ih =>
    intro k
    rw [hostsLoop_cons_skip _ _ _ _ _ _ _ _ (h p (List.mem_cons_self _ _)),
      ih (fun x hx => h x (List.mem_cons_of_mem _ hx))]
    rfl

theorem recorded_append (os : OS) (a b : List Event) :
    ∀ k : Nat, Recorded os k a → Recorded os (k + a.countP Event.isExec) b →
      Recorded os k (a ++ b) := by
  induction a with
  | nil =>
    intro k _ hb
    simpa using hb
  | cons e a ih =>
    intro k ha hb
    cases e with
    | Exec argv r =>
      simp only [List.cons_append, Recorded] at ha ⊢
      refine ⟨ha.1, ih (k + 1) ha.2 ?_⟩
      have : k + 1 + a.countP Event.isExec =
          k + (Event.Exec argv r :: a).countP Event.isExec := by
        simp [List.countP_cons, Event.isExec]
        omega
      rw [this]
      exact hb
    | PrintDefaults =>
      simp only [List.cons_append, Recorded] at ha ⊢
      exact ih k ha (by simpa [List.countP_cons, Event.isExec] using hb)
    | Println s =>
      simp only [List.cons_append, Recorded] at ha ⊢
      exact ih k ha (by simpa [List.countP_cons, Event.isExec] using hb)
    | Open name =>
      simp only [List.cons_append, Recorded] at ha ⊢
      exact ih k ha (by simpa [List.countP_cons, Event.isExec] using hb)
    | WriteFile name data perm =>
      simp only [List.cons_append, Recorded] at ha ⊢
      exact ih k ha (by simpa [List.countP_cons, Event.isExec] using hb)

theorem recorded_split (os : OS) (pre post : List Event) (argv : List String)
    (r : Option String) :
    ∀ k : Nat, Recorded os k (pre ++ Event.Exec argv r :: post) →
      r = os.Run (k + pre.countP Event.isExec) argv := by
  induction pre with
  | nil =>
    intro k h
    simp only [List.nil_append, Recorded] at h
    simpa using h.1
  | cons e pre ih =>
    intro k h
    cases e with
    | Exec argv1 r1 =>
      simp only [List.cons_append, Recorded] at h
      have := ih (k + 1) h.2
      rw [this]
      congr 1
      simp [List.countP_cons, Event.isExec]
      omega
    | PrintDefaults =>
      simp only [List.cons_append, Recorded] at h
      simpa [List.countP_cons, Event.isExec] using ih k h
    | Println s =>
      simp only [List.cons_append, Recorded] at h
      simpa [List.countP_cons, Event.isExec] using ih k h
    | Open name =>
      simp only [List.cons_append, Recorded] at h
      simpa [List.countP_cons, Event.isExec] using ih k h
    | WriteFile name data perm =>
      simp only [List.cons_append, Recorded] at h
      simpa [List.countP_cons, Event.isExec] using ih k h

theorem nodesLoop_recorded (os : OS) (home identity : String) (nodes : List Node) :
    ∀ k : Nat, Recorded os k (nodesLoop os home identity k nodes).1 ∧
      Counted k (nodesLoop os home identity k nodes) := by
  induction nodes with
  | nil =>
    intro k
    exact ⟨trivial, rfl⟩
  | cons n rest ih =>
    intro k
    have hkeep : ∀ (x : Node) (k0 : Nat) (r : List Event × Step (List Node × Nat)),
        Recorded os k0 r.1 ∧ Counted k r → Recorded os k0 (keep x r).1 ∧ Counted k (keep x r) := by
      intro x k0 r h
      rcases r with ⟨ev0, (⟨xs0, k0⟩ | e0)⟩
      · exact h
      · exact h
    cases n with
    | KV key value =>
      by_cases hk : key ≠ "IdentityFile"
      · rw [nodesLoop, if_pos hk]
        exact hkeep _ k _ (ih k)
      · rw [nodesLoop_cons_target _ _ _ _ _ _ _ hk]
        cases hr : os.Run k ["ssh-add", "-K", pathJoin [home, ".ssh", identity]] with
        | some err => exact ⟨⟨hr.symm, trivial⟩, trivial⟩
        | none =>
          have h1 := ih (k + 1)
          rcases hn : nodesLoop os home identity (k + 1) rest with ⟨ev0, (⟨xs0, k0⟩ | e0)⟩
          · rw [hn] at h1
            refine ⟨⟨hr.symm, h1.1⟩, ?_⟩
            have h2 : k0 = k + 1 + ev0.countP Event.isExec := h1.2
            show k0 = k + (_ :: ev0).countP Event.isExec
            simp [List.countP_cons, Event.isExec]
            omega
          · rw [hn] at h1
            exact ⟨⟨hr.symm, h1.1⟩, trivial⟩
    | Other text =>
      rw [nodesLoop]
      exact hkeep _ k _ (ih k)

theorem visitHost_recorded (lib : Lib) (os : OS) (home identity : String) (k : Nat)
    (host : Host) :
    Recorded os k (visitHost lib os home identity k host).1 ∧
      Counted k (visitHost lib os home identity k host) := by
  unfold visitHost
  have h := nodesLoop_recorded os home identity host.Nodes k
  rcases hn : nodesLoop os home identity k host.Nodes with ⟨ev0, (⟨ns, k0⟩ | e0)⟩
  · rw [hn] at h
    constructor
    · exact recorded_append os ev0 _ k h.1 trivial
    · have h2 : k0 = k + ev0.countP Event.isExec := h.2
      show k0 = k + (ev0 ++ _).countP Event.isExec
      simp [List.countP_append, List.countP_cons, Event.isExec]
      exact h2
  · rw [hn] at h
    exact h

theorem hostsLoop_recorded (lib : Lib) (os : OS) (hostFlag home identity : String)
    (hosts : List Host) :
    ∀ k : Nat, Recorded os k (hostsLoop lib os hostFlag home identity k hosts).1 ∧
      Counted k (hostsLoop lib os hostFlag home identity k hosts) := by
  induction hosts with
  | nil =>
    intro k
    exact ⟨trivial, rfl⟩
  | cons p rest ih =>
    intro k
    cases hp : inScope lib hostFlag p with
    | false =>
      rw [hostsLoop_cons_skip _ _ _ _ _ _ _ _ hp]
      have h := ih k
      rcases hr : hostsLoop lib os hostFlag home identity k rest with ⟨ev0, (⟨xs0, k0⟩ | e0)⟩
      · rw [hr] at h
        exact h
      · rw [hr] at h
        exact h
    | true =>
      rw [hostsLoop_cons_visit _ _ _ _ _ _ _ _ hp]
      have hv := visitHost_recorded lib os home identity k p
      rcases hvr : visitHost lib os home identity k p with ⟨ev0, (⟨h1, k0⟩ | e0)⟩
      · rw [hvr] at hv
        have hk0 : k0 = k + ev0.countP Event.isExec := hv.2
        have h := ih k0
        dsimp only
        rcases hr : hostsLoop lib os hostFlag home identity k0 rest with
          ⟨ev1, (⟨xs1, k1⟩ | e1)⟩
        · rw [hr] at h
          constructor
          · exact recorded_append os ev0 ev1 k hv.1 (hk0 ▸ h.1)
          · have h2 : k1 = k0 + ev1.countP Event.isExec := h.2
            show k1 = k + (ev0 ++ ev1).countP Event.isExec
            rw [List.countP_append]
            omega
        · rw [hr] at h
          exact ⟨recorded_append os ev0 ev1 k hv.1 (hk0 ▸ h.1), trivial⟩
      · rw [hvr] at hv
        exact hv

/-! ## Lemmas on `main` -/

theorem main_help (os : OS) (lib : Lib) (fl : Flags) (args : List String)
    (h1 : fl.helpFlag = true) :
    main os lib fl args = ⟨[Event.PrintDefaults], Exit.returned⟩ := by
  simp only [main, h1, if_true]

theorem main_home_error (os : OS) (lib : Lib) (fl : Flags) (args : List String) (err : String)
    (h1 : fl.helpFlag = false) (hH : os.UserHomeDir = Except.error err) :
    main os lib fl args = ⟨[], Exit.fatal err⟩ := by
  simp only [main, h1, hH, Bool.false_eq_true, if_false]

theorem main_getwd_error (os : OS) (lib : Lib) (fl : Flags) (args : List String)
    (home err : String) (h1 : fl.helpFlag = false) (hH : os.UserHomeDir = Except.ok home)
    (hW : os.Getwd = Except.error err) :
    main os lib fl args = ⟨[], Exit.fatal err⟩ := by
  simp only [main, h1, hH, hW, Bool.false_eq_true, if_false]

theorem main_open_error (os : OS) (lib : Lib) (fl : Flags) (args : List String)
    (home wdir err : String) (h1 : fl.helpFlag = false) (hH : os.UserHomeDir = Except.ok home)
    (hW : os.Getwd = Except.ok wdir)
    (hO : os.Open (confPath fl.confFlag home wdir) = Except.error err) :
    main os lib fl args = ⟨[Event.Open (confPath fl.confFlag home wdir)], Exit.fatal err⟩ := by
  simp only [main, h1, hH, hW, hO, Bool.false_eq_true, if_false]

theorem main_decode_error (os : OS) (lib : Lib) (fl : Flags) (args : List String)
    (home wdir f err : String) (h1 : fl.helpFlag = false)
    (hH : os.UserHomeDir = Except.ok home) (hW : os.Getwd = Except.ok wdir)
    (hO : os.Open (confPath fl.confFlag home wdir) = Except.ok f)
    (hD : lib.Decode f = Except.error err) :
    main os lib fl args = ⟨[Event.Open (confPath fl.confFlag home wdir)], Exit.fatal err⟩ := by
  simp only [main, h1, hH, hW, hO, hD, Bool.false_eq_true, if_false]

theorem main_list (os : OS) (lib : Lib) (fl : Flags) (args : List String)
    (home wdir f : String) (c : Config) (h1 : fl.helpFlag = false)
    (hH : os.UserHomeDir = Except.ok home) (hW : os.Getwd = Except.ok wdir)
    (hO : os.Open (confPath fl.confFlag home wdir) = Except.ok f)
    (hD : lib.Decode f = Except.ok c) (h2 : fl.listFlag = true) :
    main os lib fl args =
      ⟨[Event.Open (confPath fl.confFlag home wdir), Event.Println (lib.ConfigString c)],
        Exit.returned⟩ := by
  simp only [main, h1, hH, hW, hO, hD, h2, Bool.false_eq_true, if_false, if_true]

theorem main_no_argument (os : OS) (lib : Lib) (fl : Flags) (args : List String)
    (home wdir f : String) (c : Config) (h1 : fl.helpFlag = false)
    (hH : os.UserHomeDir = Except.ok home) (hW : os.Getwd = Except.ok wdir)
    (hO : os.Open (confPath fl.confFlag home wdir) = Except.ok f)
    (hD : lib.Decode f = Except.ok c) (h2 : fl.listFlag = false) (h3 : args.length < 1) :
    main os lib fl args =
      ⟨[Event.Open (confPath fl.confFlag home wdir)],
        Exit.panicked "no argument given to the command line"⟩ := by
  simp only [main, h1, hH, hW, hO, hD, h2, h3, Bool.false_eq_true, if_false, if_true]

theorem main_edit (os : OS) (lib : Lib) (fl : Flags) (args : List String)
    (home wdir f : String) (c : Config) (h1 : fl.helpFlag = false)
    (hH : os.UserHomeDir = Except.ok home) (hW : os.Getwd = Except.ok wdir)
    (hO : os.Open (confPath fl.confFlag home wdir) = Except.ok f)
    (hD : lib.Decode f = Except.ok c) (h2 : fl.listFlag = false) (h3 : ¬ args.length < 1) :
    main os lib fl args =
      match hostsLoop lib os fl.hostFlag home (args.getD 0 "") 0 c.Hosts with
      | (ev, Step.fatal err) =>
        ⟨Event.Open (confPath fl.confFlag home wdir) :: ev, Exit.fatal err⟩
      | (ev, Step.done (hosts, _)) =>
        match lib.MarshalText { c with Hosts := hosts } with
        | Except.error err =>
          ⟨Event.Open (confPath fl.confFlag home wdir) :: ev, Exit.fatal err⟩
        | Except.ok mt =>
          match os.WriteFile (confPath fl.confFlag home wdir) mt 0o644 with
          | some err =>
            ⟨Event.Open (confPath fl.confFlag home wdir) :: ev ++
              [Event.WriteFile (confPath fl.confFlag home wdir) mt 0o644], Exit.fatal err⟩
          | none =>
            ⟨Event.Open (confPath fl.confFlag home wdir) :: ev ++
              [Event.WriteFile (confPath fl.confFlag home wdir) mt 0o644], Exit.returned⟩ := by
  simp only [main, h1, hH, hW, hO, hD, h2, h3, Bool.false_eq_true, if_false]

/-- A run of `main` outside edit mode with a positional argument has at most the effects
`PrintDefaults`, `Open` and `Println`, and does not return normally when neither `-help`
nor `-list` is set. -/
theorem main_not_edit (os : OS) (lib : Lib) (fl : Flags) (args : List String)
    (h : fl.helpFlag = true ∨ fl.listFlag = true ∨ args.length < 1) :
    (∀ e ∈ (main os lib fl args).trace,
      e.isWrite = false ∧ e.isExec = false ∧ e.isFailedExec = false) ∧
    (fl.helpFlag = false → fl.listFlag = false → (main os lib fl args).exit ≠ Exit.returned) := by
  cases h1 : fl.helpFlag with
  | true => rw [main_help os lib fl args h1]; simp [Event.isWrite, Event.isExec, Event.isFailedExec]
  | false =>
    have h23 : fl.listFlag = true ∨ args.length < 1 := by
      rcases h with h | h
      · rw [h1] at h; cases h
      · exact h
    cases hH : os.UserHomeDir with
    | error err => rw [main_home_error os lib fl args err h1 hH]; simp
    | ok home =>
      cases hW : os.Getwd with
      | error err => rw [main_getwd_error os lib fl args home err h1 hH hW]; simp
      | ok wdir =>
        cases hO : os.Open (confPath fl.confFlag home wdir) with
        | error err =>
          rw [main_open_error os lib fl args home wdir err h1 hH hW hO]
          simp [Event.isWrite, Event.isExec, Event.isFailedExec]
        | ok f =>
          cases hD : lib.Decode f with
          | error err =>
            rw [main_decode_error os lib fl args home wdir f err h1 hH hW hO hD]
            simp [Event.isWrite, Event.isExec, Event.isFailedExec]
          | ok c =>
            cases h2 : fl.listFlag with
            | true =>
              rw [main_list os lib fl args home wdir f c h1 hH hW hO hD h2]
              simp [Event.isWrite, Event.isExec, Event.isFailedExec]
            | false =>
              have h3 : args.length < 1 := by
                rcases h23 with h | h
                · rw [h2] at h; cases h
                · exact h
              rw [main_no_argument os lib fl args home wdir f c h1 hH hW hO hD h2 h3]
              simp [Event.isWrite, Event.isExec, Event.isFailedExec]

/-- The effects of a run of `main`: either no run of the external command failed, or the
failed run is the last effect, the process ends with its error, and nothing was written. -/
theorem main_cases (os : OS) (lib : Lib) (fl : Flags) (args : List String) :
    (∀ e ∈ (main os lib fl args).trace, e.isFailedExec = false) ∨
    (∃ p argv err, (main os lib fl args).trace = p ++ [Event.Exec argv (some err)] ∧
      Quiet p ∧ (main os lib fl args).exit = Exit.fatal err) := by
  by_cases hm : fl.helpFlag = true ∨ fl.listFlag = true ∨ args.length < 1
  · exact Or.inl (fun e he => ((main_not_edit os lib fl args hm).1 e he).2.2)
  · have h1 : fl.helpFlag = false := by
      cases hh : fl.helpFlag with
      | true => exact absurd (Or.inl hh) hm
      | false => rfl
    have h2 : fl.listFlag = false := by
      cases hh : fl.listFlag with
      | true => exact absurd (Or.inr (Or.inl hh)) hm
      | false => rfl
    have h3 : ¬ args.length < 1 := fun hh => hm (Or.inr (Or.inr hh))
    cases hH : os.UserHomeDir with
    | error err => rw [main_home_error os lib fl args err h1 hH]; simp
    | ok home =>
      cases hW : os.Getwd with
      | error err => rw [main_getwd_error os lib fl args home err h1 hH hW]; simp
      | ok wdir =>
        cases hO : os.Open (confPath fl.confFlag home wdir) with
        | error err =>
          rw [main_open_error os lib fl args home wdir err h1 hH hW hO]
          simp [Event.isFailedExec]
        | ok f =>
          cases hD : lib.Decode f with
          | error err =>
            rw [main_decode_error os lib fl args home wdir f err h1 hH hW hO hD]
            simp [Event.isFailedExec]
          | ok c =>
            rw [main_edit os lib fl args home wdir f c h1 hH hW hO hD h2 h3]
            have ht := hostsLoop_trace lib os fl.hostFlag home (args.getD 0 "") c.Hosts 0
            rcases hl : hostsLoop lib os fl.hostFlag home (args.getD 0 "") 0 c.Hosts with
              ⟨ev, (⟨hosts1, k1⟩ | err)⟩
            · rw [hl] at ht
              left
              dsimp only
              have hq : ∀ e ∈ ev, e.isFailedExec = false := fun e he => (ht e he).1
              cases lib.MarshalText { c with Hosts := hosts1 } with
              | error err =>
                intro e he
                rcases List.mem_cons.1 he with h | h
                · rw [h]; rfl
                · exact hq e h
              | ok mt =>
                dsimp only
                cases os.WriteFile (confPath fl.confFlag home wdir) mt 0o644 with
                | some err =>
                  intro e he
                  dsimp only at he
                  rcases List.mem_cons.1 he with h | h
                  · rw [h]; rfl
                  · rcases List.mem_append.1 h with h | h
                    · exact hq e h
                    · rw [List.mem_singleton.1 h]; rfl
                | none =>
                  intro e he
                  dsimp only at he
                  rcases List.mem_cons.1 he with h | h
                  · rw [h]; rfl
                  · rcases List.mem_append.1 h with h | h
                    · exact hq e h
                    · rw [List.mem_singleton.1 h]; rfl
            · rw [hl] at ht
              obtain ⟨pre, argv, rfl, hq⟩ := ht
              right
              exact ⟨Event.Open (confPath fl.confFlag home wdir) :: pre, argv, err, rfl,
                quiet_cons ⟨rfl, rfl⟩ hq, rfl⟩

/-- Every run of the external command in the trace of `main` has the error the operating
system returned for it. -/
theorem main_recorded (os : OS) (lib : Lib) (fl : Flags) (args : List String) :
    Recorded os 0 (main os lib fl args).trace := by
  cases h1 : fl.helpFlag with
  | true => rw [main_help os lib fl args h1]; trivial
  | false =>
    cases hH : os.UserHomeDir with
    | error err => rw [main_home_error os lib fl args err h1 hH]; trivial
    | ok home =>
      cases hW : os.Getwd with
      | error err => rw [main_getwd_error os lib fl args home err h1 hH hW]; trivial
      | ok wdir =>
        cases hO : os.Open (confPath fl.confFlag home wdir) with
        | error err => rw [main_open_error os lib fl args home wdir err h1 hH hW hO]; trivial
        | ok f =>
          cases hD : lib.Decode f with
          | error err =>
            rw [main_decode_error os lib fl args home wdir f err h1 hH hW hO hD]; trivial
          | ok c =>
            cases h2 : fl.listFlag with
            | true => rw [main_list os lib fl args home wdir f c h1 hH hW hO hD h2]; trivial
            | false =>
              by_cases h3 : args.length < 1
              · rw [main_no_argument os lib fl args home wdir f c h1 hH hW hO hD h2 h3]
                trivial
              · rw [main_edit os lib fl args home wdir f c h1 hH hW hO hD h2 h3]
                have ht := (hostsLoop_recorded lib os fl.hostFlag home (args.getD 0 "")
                  c.Hosts 0).1
                rcases hl : hostsLoop lib os fl.hostFlag home (args.getD 0 "") 0 c.Hosts with
                  ⟨ev, (⟨hosts1, k1⟩ | err)⟩
                · rw [hl] at ht
                  dsimp only
                  cases lib.MarshalText { c with Hosts := hosts1 } with
                  | error err => exact ht
                  | ok mt =>
                    dsimp only
                    cases os.WriteFile (confPath fl.confFlag home wdir) mt 0o644 with
                    | some err =>
                      exact recorded_append os (Event.Open _ :: ev) _ 0 ht trivial
                    | none =>
                      exact recorded_append os (Event.Open _ :: ev) _ 0 ht trivial
                · rw [hl] at ht
                  exact ht

/-! ## The claims -/

/-- C1, counterexample: with the default pattern `*` the block `Host *`, whose matcher
matches `*`, is not excluded from the pass: its `IdentityFile` node is overwritten and the
external command runs for it. -/
theorem default_pattern_mutates_star_block :
    (exampleLib scenario).Matches hostStar "*" = true ∧
    hostsLoop (exampleLib scenario) (exampleOS scenario "/home/u" none) "*" "/home/u" "new_key"
        0 [hostStar] =
      ([Event.Exec ["ssh-add", "-K", "/home/u/.ssh/new_key"] none,
        Event.Println "Host *\n  IdentityFile /home/u/.ssh/new_key\n"],
       Step.done
        ([{ Patterns := ["*"], Nodes := [Node.KV "IdentityFile" "/home/u/.ssh/new_key"] }], 1)) := by
  decide

/-- C1, as amended: with the default pattern `*`, the blocks whose matcher matches the
literal `*` are the ones in scope.  After a pass that ran to its end such a block is the
block rewritten (each `IdentityFile` node holds `join(home, ".ssh", identity)`), a block
whose matcher does not match `*` is as it was, and the external command ran once per
`IdentityFile` node of the blocks that match `*`. -/
theorem default_pattern_scope (lib : Lib) (os : OS) (home identity : String) (k : Nat)
    (hosts : List Host) (ev : List Event) (hosts1 : List Host) (k1 : Nat)
    (h : hostsLoop lib os "*" home identity k hosts = (ev, Step.done (hosts1, k1))) :
    List.Forall₂ (fun host host1 =>
        (lib.Matches host "*" = true →
          host1 = rewriteHost (pathJoin [home, ".ssh", identity]) host) ∧
        (lib.Matches host "*" = false → host1 = host)) hosts hosts1 ∧
    ev.countP Event.isExec =
      ((hosts.filter (fun host => lib.Matches host "*")).map targets).sum := by
  obtain ⟨rfl, h2, -⟩ := hostsLoop_done lib os "*" home identity hosts k ev hosts1 k1 h
  constructor
  · apply forall₂_map_self
    intro host _
    rw [inScope_star]
    constructor
    · intro hm
      rw [hm]
      rfl
    · intro hm
      rw [hm]
      rfl
  · rw [h2, List.filter_congr (fun host _ => inScope_star lib host)]

/-- Witness for C1 as amended, on the spec scenario. -/
theorem default_pattern_scope_witness :
    List.Forall₂ (fun host host1 =>
        (Host.Matches host "*" = true →
          host1 = rewriteHost (pathJoin ["/home/u", ".ssh", "new_key"]) host) ∧
        (Host.Matches host "*" = false → host1 = host))
      [hostStar, hostExample]
      [{ Patterns := ["*"], Nodes := [Node.KV "IdentityFile" "/home/u/.ssh/new_key"] },
        hostExample] ∧
    [Event.Exec ["ssh-add", "-K", "/home/u/.ssh/new_key"] none,
      Event.Println "Host *\n  IdentityFile /home/u/.ssh/new_key\n"].countP Event.isExec =
      (([hostStar, hostExample].filter (fun host => Host.Matches host "*")).map targets).sum :=
  default_pattern_scope (exampleLib scenario) (exampleOS scenario "/home/u" none) "/home/u"
    "new_key" 0 scenario.Hosts _ _ 1 (by decide)

/-- C2, counterexample: the spec scenario.  Edit mode with identity `new_key` and no `-host`
override on `Host *` / `Host example.com`, both with `IdentityFile old_key`: the run
completes, and the `IdentityFile` of `Host example.com` is still `old_key`, in memory and
in the file written; the one of `Host *` is `/home/u/.ssh/new_key`. -/
theorem default_pattern_leaves_example_com :
    hostsLoop (exampleLib scenario) (exampleOS scenario "/home/u" none) "*" "/home/u" "new_key"
        0 scenario.Hosts =
      ([Event.Exec ["ssh-add", "-K", "/home/u/.ssh/new_key"] none,
        Event.Println "Host *\n  IdentityFile /home/u/.ssh/new_key\n"],
       Step.done
        ([{ Patterns := ["*"], Nodes := [Node.KV "IdentityFile" "/home/u/.ssh/new_key"] },
          { Patterns := ["example.com"], Nodes := [Node.KV "IdentityFile" "old_key"] }], 1)) ∧
    main (exampleOS scenario "/home/u" none) (exampleLib scenario) Flags.default ["new_key"] =
      { trace :=
          [Event.Open "/home/u/.ssh/config",
            Event.Exec ["ssh-add", "-K", "/home/u/.ssh/new_key"] none,
            Event.Println "Host *\n  IdentityFile /home/u/.ssh/new_key\n",
            Event.WriteFile "/home/u/.ssh/config"
              "Host *\n  IdentityFile /home/u/.ssh/new_key\nHost example.com\n  IdentityFile old_key\n"
              0o644],
        exit := Exit.returned } := by
  decide

/-- C2, as amended: with no `-host` override (pattern `*`) a block whose matcher does not
match the literal `*`, such as `Host example.com`, is skipped, wherever it stands in the
configuration: the pass has the effects and the end it has on the configuration without
the block, and leaves the block itself in its place. -/
theorem default_pattern_skips_specific_hosts (lib : Lib) (os : OS) (home identity : String)
    (host : Host) (hm : lib.Matches host "*" = false) (pre post : List Host) (k : Nat) :
    hostsLoop lib os "*" home identity k (pre ++ host :: post) =
      insertAt pre.length host (hostsLoop lib os "*" home identity k (pre ++ post)) :=
  hostsLoop_skip_at lib os "*" home identity host post
    (by rw [inScope_star]; exact hm) pre k

/-- Witness for C2 as amended: `Host example.com` after `Host *`. -/
theorem default_pattern_skips_specific_hosts_witness :
    Host.Matches hostExample "*" = false ∧
    hostsLoop (exampleLib scenario) (exampleOS scenario "/home/u" none) "*" "/home/u" "new_key"
        0 ([hostStar] ++ hostExample :: []) =
      insertAt 1 hostExample
        (hostsLoop (exampleLib scenario) (exampleOS scenario "/home/u" none) "*" "/home/u"
          "new_key" 0 ([hostStar] ++ [])) :=
  ⟨by decide,
    default_pattern_skips_specific_hosts (exampleLib scenario)
      (exampleOS scenario "/home/u" none) "/home/u" "new_key" hostExample (by decide)
      [hostStar] [] 0⟩

/-- C3, counterexample: with `-host example.com` the block `Host *` matches the pattern
(`Matches` reports true) and is nevertheless out of scope: the pass leaves it as it was
and has no effect. -/
theorem matching_star_block_not_in_scope :
    ("example.com" : String) ≠ "*" ∧
    (exampleLib scenario).Matches hostStar "example.com" = true ∧
    hostsLoop (exampleLib scenario) (exampleOS scenario "/home/u" none) "example.com" "/home/u"
        "new_key" 0 [hostStar] = ([], Step.done ([hostStar], 0)) := by
  decide

/-- C3, as amended: for a pattern other than `*`, a block is in scope if and only if its
matcher matches the pattern and does not match the literal `*`.  In scope: the iteration
of the loop on the block is the visit of the block, which has at least one effect.  Out of
scope: the pass is the pass on the configuration without the block, the block left in its
place. -/
theorem explicit_pattern_scope (lib : Lib) (os : OS) (hostFlag home identity : String)
    (host : Host) (hP : hostFlag ≠ "*") :
    ((lib.Matches host hostFlag = true ∧ lib.Matches host "*" = false) →
      ∀ (k : Nat) (rest : List Host),
        (visitHost lib os home identity k host).1 ≠ [] ∧
        hostsLoop lib os hostFlag home identity k (host :: rest) =
          match visitHost lib os home identity k host with
          | (ev, Step.fatal err) => (ev, Step.fatal err)
          | (ev, Step.done (host1, k1)) =>
            emit ev (keep host1 (hostsLoop lib os hostFlag home identity k1 rest))) ∧
    (¬ (lib.Matches host hostFlag = true ∧ lib.Matches host "*" = false) →
      ∀ (k : Nat) (pre post : List Host),
        hostsLoop lib os hostFlag home identity k (pre ++ host :: post) =
          insertAt pre.length host (hostsLoop lib os hostFlag home identity k (pre ++ post))) := by
  constructor
  · rintro ⟨h1, h2⟩ k rest
    refine ⟨visitHost_effects lib os home identity k host, ?_⟩
    apply hostsLoop_cons_visit
    rw [inScope_of_ne_star lib hostFlag host hP, h1, h2]
    rfl
  · intro hn k pre post
    apply hostsLoop_skip_at
    rw [inScope_of_ne_star lib hostFlag host hP]
    cases h1 : lib.Matches host hostFlag with
    | false => rfl
    | true =>
      cases h2 : lib.Matches host "*" with
      | false => exact absurd ⟨h1, h2⟩ hn
      | true => rfl

/-- Witness for C3 as amended: with `-host example.com`, `Host example.com` is in
scope and `Host *` is not. -/
theorem explicit_pattern_scope_witness :
    ((visitHost (exampleLib scenario) (exampleOS scenario "/home/u" none) "/home/u" "new_key" 0
        hostExample).1 ≠ [] ∧
      hostsLoop (exampleLib scenario) (exampleOS scenario "/home/u" none) "example.com"
          "/home/u" "new_key" 0 (hostExample :: []) =
        match visitHost (exampleLib scenario) (exampleOS scenario "/home/u" none) "/home/u"
            "new_key" 0 hostExample with
        | (ev, Step.fatal err) => (ev, Step.fatal err)
        | (ev, Step.done (host1, k1)) =>
          emit ev (keep host1 (hostsLoop (exampleLib scenario)
            (exampleOS scenario "/home/u" none) "example.com" "/home/u" "new_key" k1 []))) ∧
    hostsLoop (exampleLib scenario) (exampleOS scenario "/home/u" none) "example.com"
        "/home/u" "new_key" 0 ([] ++ hostStar :: [hostExample]) =
      insertAt 0 hostStar
        (hostsLoop (exampleLib scenario) (exampleOS scenario "/home/u" none) "example.com"
          "/home/u" "new_key" 0 ([] ++ [hostExample])) :=
  ⟨(explicit_pattern_scope (exampleLib scenario) (exampleOS scenario "/home/u" none)
      "example.com" "/home/u" "new_key" hostExample (by decide)).1 (by decide) 0 [],
    (explicit_pattern_scope (exampleLib scenario) (exampleOS scenario "/home/u" none)
      "example.com" "/home/u" "new_key" hostStar (by decide)).2 (by decide) 0 [] [hostExample]⟩

/-- C4: after a pass that ran to its end (every run of the external command succeeded),
in every block in scope every key/value node with key `IdentityFile` has the value
`join(home, ".ssh", identity)`: each such node of the block before the pass is, at its
position, the node `IdentityFile join(home, ".ssh", identity)` after it, whatever value it
had. -/
theorem identityFile_value_after_pass (lib : Lib) (os : OS) (hostFlag home identity : String)
    (k : Nat) (hosts : List Host) (ev : List Event) (hosts1 : List Host) (k1 : Nat)
    (h : hostsLoop lib os hostFlag home identity k hosts = (ev, Step.done (hosts1, k1))) :
    List.Forall₂ (fun host host1 =>
        inScope lib hostFlag host = true →
          (∀ key value, Node.KV key value ∈ host1.Nodes → key = "IdentityFile" →
            value = pathJoin [home, ".ssh", identity]) ∧
          List.Forall₂ (fun n n1 =>
              ∀ value, n = Node.KV "IdentityFile" value →
                n1 = Node.KV "IdentityFile" (pathJoin [home, ".ssh", identity]))
            host.Nodes host1.Nodes) hosts hosts1 := by
  obtain ⟨rfl, -, -⟩ := hostsLoop_done lib os hostFlag home identity hosts k ev hosts1 k1 h
  apply forall₂_map_self
  intro host _ hs
  rw [hs]
  simp only [if_true, rewriteHost]
  constructor
  · intro key value hmem hk
    obtain ⟨n, -, hn⟩ := List.mem_map.1 hmem
    cases n with
    | KV key0 value0 =>
      by_cases hk0 : key0 = "IdentityFile"
      · simp only [rewriteNode, hk0, if_true, Node.KV.injEq] at hn
        exact hn.2.symm
      · simp only [rewriteNode, hk0, if_false, Node.KV.injEq] at hn
        exact absurd (hn.1.trans hk) hk0
    | Other text => simp [rewriteNode] at hn
  · apply forall₂_map_self
    intro n _ value hn
    rw [hn]
    simp [rewriteNode]

/-- Witness for C4: `-host example.com` on the spec scenario. -/
theorem identityFile_value_after_pass_witness :
    List.Forall₂ (fun host host1 =>
        inScope (exampleLib scenario) "example.com" host = true →
          (∀ key value, Node.KV key value ∈ host1.Nodes → key = "IdentityFile" →
            value = pathJoin ["/home/u", ".ssh", "new_key"]) ∧
          List.Forall₂ (fun n n1 =>
              ∀ value, n = Node.KV "IdentityFile" value →
                n1 = Node.KV "IdentityFile" (pathJoin ["/home/u", ".ssh", "new_key"]))
            host.Nodes host1.Nodes)
      [hostStar, hostExample]
      [hostStar,
        { Patterns := ["example.com"],
          Nodes := [Node.KV "IdentityFile" "/home/u/.ssh/new_key"] }] :=
  identityFile_value_after_pass (exampleLib scenario) (exampleOS scenario "/home/u" none)
    "example.com" "/home/u" "new_key" 0 scenario.Hosts
    [Event.Exec ["ssh-add", "-K", "/home/u/.ssh/new_key"] none,
      Event.Println "Host example.com\n  IdentityFile /home/u/.ssh/new_key\n"]
    _ 1 (by decide)

/-- C5: a failed run of the external command is fatal and prevents the write.  If a run of
the external command returned an error, it is the last effect of the run of `main` (no
later run of the command, no write), the process ends in `log.Fatal` with that error, and
no effect of the run is a write.  Hence a run of `main` that wrote the file had no failed
run of the external command.  The error listed with a run of the command is the one the
operating system returned for it. -/
theorem helper_failure_is_fatal (os : OS) (lib : Lib) (fl : Flags) (args : List String) :
    (∀ (pre post : List Event) (argv : List String) (err : String),
      (main os lib fl args).trace = pre ++ Event.Exec argv (some err) :: post →
      post = [] ∧ (main os lib fl args).exit = Exit.fatal err ∧
        ∀ e ∈ (main os lib fl args).trace, e.isWrite = false) ∧
    ((∃ e ∈ (main os lib fl args).trace, e.isWrite = true) →
      ∀ e ∈ (main os lib fl args).trace, e.isFailedExec = false) ∧
    (∀ (pre post : List Event) (argv : List String) (r : Option String),
      (main os lib fl args).trace = pre ++ Event.Exec argv r :: post →
      r = os.Run (pre.countP Event.isExec) argv) := by
  have key : ∀ (pre post : List Event) (argv : List String) (err : String),
      (main os lib fl args).trace = pre ++ Event.Exec argv (some err) :: post →
      post = [] ∧ (main os lib fl args).exit = Exit.fatal err ∧
        ∀ e ∈ (main os lib fl args).trace, e.isWrite = false := by
    intro pre post argv err h
    rcases main_cases os lib fl args with hA | ⟨p, argv1, err1, hp, hq, hx⟩
    · have := hA (Event.Exec argv (some err)) (by rw [h]; simp)
      simp [Event.isFailedExec] at this
    · obtain ⟨hpost, heq⟩ := failed_is_last p (Event.Exec argv1 (some err1))
        (Event.Exec argv (some err)) hq rfl pre post (hp.symm.trans h)
      simp only [Event.Exec.injEq, Option.some.injEq] at heq
      refine ⟨hpost, ?_, ?_⟩
      · rw [hx, heq.2]
      · intro e he
        rw [hp] at he
        rcases List.mem_append.1 he with h1 | h1
        · exact (hq e h1).2
        · rw [List.mem_singleton.1 h1]; rfl
  refine ⟨key, ?_, ?_⟩
  swap
  · intro pre post argv r h
    have hr := main_recorded os lib fl args
    rw [h] at hr
    simpa using recorded_split os pre post argv r 0 hr
  rintro ⟨w, hw, hww⟩ e he
  cases hf : e.isFailedExec with
  | false => rfl
  | true =>
    exfalso
    cases e with
    | Exec argv r =>
      cases r with
      | none => simp [Event.isFailedExec] at hf
      | some err =>
        obtain ⟨pre, post, hsplit⟩ := List.append_of_mem he
        have := (key pre post argv err hsplit).2.2 w hw
        rw [hww] at this
        cases this
    | PrintDefaults => simp [Event.isFailedExec] at hf
    | Println s => simp [Event.isFailedExec] at hf
    | Open name => simp [Event.isFailedExec] at hf
    | WriteFile name data perm => simp [Event.isFailedExec] at hf

/-- Witness for C5: the spec scenario, where the first run of
`ssh-add` fails: the run ends there, with nothing written. -/
theorem helper_failure_is_fatal_witness :
    main (exampleOS scenario "/home/u" (some 0)) (exampleLib scenario) Flags.default
        ["new_key"] =
      { trace := [Event.Open "/home/u/.ssh/config"] ++
          Event.Exec ["ssh-add", "-K", "/home/u/.ssh/new_key"] (some "exit status 1") :: [],
        exit := Exit.fatal "exit status 1" } ∧
    (([] : List Event) = [] ∧
      (main (exampleOS scenario "/home/u" (some 0)) (exampleLib scenario) Flags.default
        ["new_key"]).exit = Exit.fatal "exit status 1" ∧
      ∀ e ∈ (main (exampleOS scenario "/home/u" (some 0)) (exampleLib scenario) Flags.default
        ["new_key"]).trace, e.isWrite = false) :=
  ⟨by decide,
    (helper_failure_is_fatal (exampleOS scenario "/home/u" (some 0)) (exampleLib scenario)
      Flags.default ["new_key"]).1 [Event.Open "/home/u/.ssh/config"] []
      ["ssh-add", "-K", "/home/u/.ssh/new_key"] "exit status 1" (by decide)⟩

/-- C6: the pass changes nothing but the values of `IdentityFile` nodes of blocks in
scope.  After a pass that ran to its end the configuration has the same blocks in the same
order, each with its patterns and with its nodes in the same order, every node equal to
the original or an `IdentityFile` node of a block in scope with a new value; a block
without an `IdentityFile` node is unchanged.  A configuration in which no block is in
scope, in particular one in which no block matches the pattern, is returned unchanged,
without any effect. -/
theorem pass_frame (lib : Lib) (os : OS) (hostFlag home identity : String) (k : Nat)
    (hosts : List Host) :
    (∀ (ev : List Event) (hosts1 : List Host) (k1 : Nat),
      hostsLoop lib os hostFlag home identity k hosts = (ev, Step.done (hosts1, k1)) →
      List.Forall₂ (fun host host1 =>
          host1.Patterns = host.Patterns ∧
          List.Forall₂ (fun n n1 =>
              n1 = n ∨
              (inScope lib hostFlag host = true ∧
                ∃ value value1, n = Node.KV "IdentityFile" value ∧
                  n1 = Node.KV "IdentityFile" value1))
            host.Nodes host1.Nodes ∧
          ((∀ value, Node.KV "IdentityFile" value ∉ host.Nodes) → host1 = host))
        hosts hosts1) ∧
    ((∀ host ∈ hosts, inScope lib hostFlag host = false) →
      hostsLoop lib os hostFlag home identity k hosts = ([], Step.done (hosts, k))) ∧
    ((∀ host ∈ hosts, lib.Matches host hostFlag = false) →
      hostsLoop lib os hostFlag home identity k hosts = ([], Step.done (hosts, k))) := by
  refine ⟨?_, ?_, ?_⟩
  · intro ev hosts1 k1 h
    obtain ⟨rfl, -, -⟩ := hostsLoop_done lib os hostFlag home identity hosts k ev hosts1 k1 h
    apply forall₂_map_self
    intro host _
    cases hs : inScope lib hostFlag host with
    | false =>
      simp only [Bool.false_eq_true, if_false, false_and, or_false, true_and]
      refine ⟨?_, fun _ => trivial⟩
      have hid := forall₂_map_self (fun n n1 : Node => n1 = n) id host.Nodes (fun n _ => rfl)
      rwa [List.map_id] at hid
    | true =>
      simp only [if_true, true_and]
      refine ⟨rfl, ?_, fun hno => rewriteHost_of_no_target _ host hno⟩
      apply forall₂_map_self
      intro n _
      cases n with
      | KV key value =>
        by_cases hk : key = "IdentityFile"
        · subst hk
          exact Or.inr ⟨value, pathJoin [home, ".ssh", identity], rfl, by simp [rewriteNode]⟩
        · exact Or.inl (by simp [rewriteNode, hk])
      | Other text => exact Or.inl rfl
  · intro hall
    exact hostsLoop_all_skipped lib os hostFlag home identity hosts hall k
  · intro hall
    apply hostsLoop_all_skipped lib os hostFlag home identity hosts _ k
    intro host hh
    simp [inScope, hall host hh]

/-- Witness for C6: the pass with `-host example.com` on the spec scenario; the
pass with `-host other.org` on it, where no block is in scope; and the pass with
`-host other.org` on `Host example.com` alone, which does not match. -/
theorem pass_frame_witness :
    List.Forall₂ (fun host host1 =>
        host1.Patterns = host.Patterns ∧
        List.Forall₂ (fun n n1 =>
            n1 = n ∨
            (inScope (exampleLib scenario) "example.com" host = true ∧
              ∃ value value1, n = Node.KV "IdentityFile" value ∧
                n1 = Node.KV "IdentityFile" value1))
          host.Nodes host1.Nodes ∧
        ((∀ value, Node.KV "IdentityFile" value ∉ host.Nodes) → host1 = host))
      [hostStar, hostExample]
      [hostStar,
        { Patterns := ["example.com"],
          Nodes := [Node.KV "IdentityFile" "/home/u/.ssh/new_key"] }] ∧
    hostsLoop (exampleLib scenario) (exampleOS scenario "/home/u" none) "other.org" "/home/u"
        "new_key" 0 [hostStar, hostExample] = ([], Step.done ([hostStar, hostExample], 0)) ∧
    hostsLoop (exampleLib scenario) (exampleOS scenario "/home/u" none) "other.org" "/home/u"
        "new_key" 0 [hostExample] = ([], Step.done ([hostExample], 0)) :=
  ⟨(pass_frame (exampleLib scenario) (exampleOS scenario "/home/u" none) "example.com"
      "/home/u" "new_key" 0 scenario.Hosts).1
      [Event.Exec ["ssh-add", "-K", "/home/u/.ssh/new_key"] none,
        Event.Println "Host example.com\n  IdentityFile /home/u/.ssh/new_key\n"]
      _ 1 (by decide),
    (pass_frame (exampleLib scenario) (exampleOS scenario "/home/u" none) "other.org"
      "/home/u" "new_key" 0 [hostStar, hostExample]).2.1 (by decide),
    (pass_frame (exampleLib scenario) (exampleOS scenario "/home/u" none) "other.org"
      "/home/u" "new_key" 0 [hostExample]).2.2 (by decide)⟩

/-- C7: outside edit mode with a positional argument the file is not written and the
external command is not run.  With `-help` the run prints the flag defaults and returns,
without any file access.  With `-list` (and no `-help`) no effect is a write or a run of
the command, and when the configuration is read and decoded the run prints its text and
returns.  With neither flag and no positional argument no effect is a write or a run of
the command, and the run does not return normally.  So a write or a run of the command
occurs only with neither flag set and at least one positional argument. -/
theorem modes_frame (os : OS) (lib : Lib) (fl : Flags) (args : List String) :
    (fl.helpFlag = true →
      main os lib fl args = ⟨[Event.PrintDefaults], Exit.returned⟩ ∧
      ∀ e ∈ (main os lib fl args).trace, e.isFileAccess = false) ∧
    (fl.helpFlag = false → fl.listFlag = true →
      (∀ e ∈ (main os lib fl args).trace, e.isWrite = false ∧ e.isExec = false) ∧
      (∀ (home wdir f : String) (c : Config),
        os.UserHomeDir = Except.ok home → os.Getwd = Except.ok wdir →
        os.Open (confPath fl.confFlag home wdir) = Except.ok f → lib.Decode f = Except.ok c →
        main os lib fl args =
          ⟨[Event.Open (confPath fl.confFlag home wdir), Event.Println (lib.ConfigString c)],
            Exit.returned⟩)) ∧
    (fl.helpFlag = false → fl.listFlag = false → args.length = 0 →
      (∀ e ∈ (main os lib fl args).trace, e.isWrite = false ∧ e.isExec = false) ∧
      (main os lib fl args).exit ≠ Exit.returned) ∧
    (∀ e ∈ (main os lib fl args).trace, e.isWrite = true ∨ e.isExec = true →
      fl.helpFlag = false ∧ fl.listFlag = false ∧ 1 ≤ args.length) := by
  refine ⟨?_, ?_, ?_, ?_⟩
  · intro h1
    rw [main_help os lib fl args h1]
    exact ⟨rfl, by simp [Event.isFileAccess]⟩
  · intro h1 h2
    constructor
    · intro e he
      have := (main_not_edit os lib fl args (Or.inr (Or.inl h2))).1 e he
      exact ⟨this.1, this.2.1⟩
    · intro home wdir f c hH hW hO hD
      exact main_list os lib fl args home wdir f c h1 hH hW hO hD h2
  · intro h1 h2 h3
    have hm := main_not_edit os lib fl args (Or.inr (Or.inr (by omega)))
    constructor
    · intro e he
      exact ⟨(hm.1 e he).1, (hm.1 e he).2.1⟩
    · exact hm.2 h1 h2
  · intro e he hwe
    by_cases hm : fl.helpFlag = true ∨ fl.listFlag = true ∨ args.length < 1
    · have := (main_not_edit os lib fl args hm).1 e he
      rcases hwe with h | h
      · rw [this.1] at h; cases h
      · rw [this.2.1] at h; cases h
    · refine ⟨?_, ?_, ?_⟩
      · cases hh : fl.helpFlag with
        | true => exact absurd (Or.inl hh) hm
        | false => rfl
      · cases hh : fl.listFlag with
        | true => exact absurd (Or.inr (Or.inl hh)) hm
        | false => rfl
      · by_contra hc
        exact hm (Or.inr (Or.inr (by omega)))

/-- Witness for C7: the spec scenario run with `-help`, with `-list`, with no
argument, and in edit mode with the argument `new_key`. -/
theorem modes_frame_witness :
    (main (exampleOS scenario "/home/u" none) (exampleLib scenario)
        { Flags.default with helpFlag := true } ["new_key"] =
        ⟨[Event.PrintDefaults], Exit.returned⟩ ∧
      ∀ e ∈ (main (exampleOS scenario "/home/u" none) (exampleLib scenario)
        { Flags.default with helpFlag := true } ["new_key"]).trace, e.isFileAccess = false) ∧
    main (exampleOS scenario "/home/u" none) (exampleLib scenario)
        { Flags.default with listFlag := true } [] =
      ⟨[Event.Open (confPath ".ssh/config" "/home/u" "/home/u"),
        Event.Println ((exampleLib scenario).ConfigString scenario)], Exit.returned⟩ ∧
    ((∀ e ∈ (main (exampleOS scenario "/home/u" none) (exampleLib scenario) Flags.default
        []).trace, e.isWrite = false ∧ e.isExec = false) ∧
      (main (exampleOS scenario "/home/u" none) (exampleLib scenario) Flags.default
        []).exit ≠ Exit.returned) ∧
    (Flags.default.helpFlag = false ∧ Flags.default.listFlag = false ∧
      1 ≤ ["new_key"].length) :=
  ⟨(modes_frame (exampleOS scenario "/home/u" none) (exampleLib scenario)
      { Flags.default with helpFlag := true } ["new_key"]).1 rfl,
    ((modes_frame (exampleOS scenario "/home/u" none) (exampleLib scenario)
      { Flags.default with listFlag := true } []).2.1 rfl rfl).2 "/home/u" "/home/u"
      (renderConfig scenario) scenario rfl rfl rfl rfl,
    (modes_frame (exampleOS scenario "/home/u" none) (exampleLib scenario) Flags.default
      []).2.2.1 rfl rfl rfl,
    (modes_frame (exampleOS scenario "/home/u" none) (exampleLib scenario) Flags.default
      ["new_key"]).2.2.2
      (Event.WriteFile "/home/u/.ssh/config"
        "Host *\n  IdentityFile /home/u/.ssh/new_key\nHost example.com\n  IdentityFile old_key\n"
        0o644)
      (by decide) (Or.inl rfl)⟩

/-- C8, the code at the failing input: `-config ./config` with home `/home/u` and working
directory `/tmp`.  The code joins the working directory and then, since `/tmp/config` does
not contain `/home/u`, joins the home directory in front: `/home/u/tmp/config`; the spec
resolves to `/tmp/config`.  And a value that contains the home directory without being
rooted there, `backup/home/u/config`, is used unchanged by the code. -/
theorem confPath_reroots_workdir_path :
    confPath "./config" "/home/u" "/tmp" = "/home/u/tmp/config" ∧
    confPathSpec "./config" "/home/u" "/tmp" = "/tmp/config" ∧
    confPath "backup/home/u/config" "/home/u" "/tmp" = "backup/home/u/config" ∧
    confPathSpec "backup/home/u/config" "/home/u" "/tmp" = "/home/u/backup/home/u/config" := by
  decide

/-- C9: when the `-host` value is not `*`, a block whose matcher matches the literal `*` is
skipped, whether or not it matches the value, wherever it stands in the configuration: the
pass has the effects and the end it has on the configuration without the block (so the
external command is not run for it), and leaves the block itself in its place. -/
theorem explicit_pattern_skips_catch_all (lib : Lib) (os : OS)
    (hostFlag home identity : String) (host : Host) (hP : hostFlag ≠ "*")
    (hm : lib.Matches host "*" = true) (pre post : List Host) (k : Nat) :
    hostsLoop lib os hostFlag home identity k (pre ++ host :: post) =
      insertAt pre.length host (hostsLoop lib os hostFlag home identity k (pre ++ post)) :=
  hostsLoop_skip_at lib os hostFlag home identity host post
    (by rw [inScope_of_ne_star lib hostFlag host hP, hm]; simp) pre k

/-- Witness for C9: `Host *` between two `Host example.com`
blocks, with `-host example.com`, which `Host *` matches too. -/
theorem explicit_pattern_skips_catch_all_witness :
    Host.Matches hostStar "example.com" = true ∧
    hostsLoop (exampleLib scenario) (exampleOS scenario "/home/u" none) "example.com"
        "/home/u" "new_key" 0 ([hostExample] ++ hostStar :: [hostExample]) =
      insertAt 1 hostStar
        (hostsLoop (exampleLib scenario) (exampleOS scenario "/home/u" none) "example.com"
          "/home/u" "new_key" 0 ([hostExample] ++ [hostExample])) :=
  ⟨by decide,
    explicit_pattern_skips_catch_all (exampleLib scenario) (exampleOS scenario "/home/u" none)
      "example.com" "/home/u" "new_key" hostStar (by decide) (by decide)
      [hostExample] [hostExample] 0⟩

/-- C10: the target test is the exact comparison of the key with `IdentityFile`.  A
key/value node whose key is any other string, `identityfile` included, and a node that is
not a key/value node, are passed over wherever they stand in the block: the loop has the
effects and the end it has on the nodes without it (so the external command is not run for
it), and leaves the node itself, value included, in its place. -/
theorem only_exact_key_is_target (os : OS) (home identity : String) :
    (∀ (key value : String), key ≠ "IdentityFile" →
      ∀ (pre post : List Node) (k : Nat),
        nodesLoop os home identity k (pre ++ Node.KV key value :: post) =
          insertAt pre.length (Node.KV key value)
            (nodesLoop os home identity k (pre ++ post))) ∧
    (∀ (text : String) (pre post : List Node) (k : Nat),
      nodesLoop os home identity k (pre ++ Node.Other text :: post) =
        insertAt pre.length (Node.Other text) (nodesLoop os home identity k (pre ++ post))) := by
  constructor
  · intro key value hk pre post k
    exact nodesLoop_skip_at os home identity (Node.KV key value) post
      (by simp [Node.isTarget, hk]) pre k
  · intro text pre post k
    exact nodesLoop_skip_at os home identity (Node.Other text) post rfl pre k

/-- Witness for C10: a node `identityfile old_key` after an
`IdentityFile` node keeps its value, and the loop runs the external command once, as it
does without the node. -/
theorem only_exact_key_is_target_witness :
    nodesLoop (exampleOS scenario "/home/u" none) "/home/u" "new_key" 0
        ([Node.KV "IdentityFile" "old_key"] ++ Node.KV "identityfile" "old_key" :: []) =
      insertAt 1 (Node.KV "identityfile" "old_key")
        (nodesLoop (exampleOS scenario "/home/u" none) "/home/u" "new_key" 0
          ([Node.KV "IdentityFile" "old_key"] ++ [])) ∧
    nodesLoop (exampleOS scenario "/home/u" none) "/home/u" "new_key" 0
        ([Node.KV "IdentityFile" "old_key"] ++ Node.KV "identityfile" "old_key" :: []) =
      ([Event.Exec ["ssh-add", "-K", "/home/u/.ssh/new_key"] none],
        Step.done
          ([Node.KV "IdentityFile" "/home/u/.ssh/new_key", Node.KV "identityfile" "old_key"],
            1)) :=
  ⟨(only_exact_key_is_target (exampleOS scenario "/home/u" none) "/home/u" "new_key").1
      "identityfile" "old_key" (by decide) [Node.KV "IdentityFile" "old_key"] [] 0,
    by decide⟩

end SshUser
